import Mathlib

/-!
# WebSocket frame codec — verification of the spec against the source

Shallow embedding of the repository's WebSocket wire-protocol engine.
Bytes are modelled as `Nat` (every value the code produces stays < 256 by
construction; overflow points of the Rust code are rendered with explicit
`% 2 ^ w`).  The frame encoder of `src/frame.rs` is translated directly;
the parts of the read path whose code lives outside the provided sources
(the header reader, `read_bytes`, the macro-generated continuation logic)
are modelled from the specification and marked as such in their doc
comments.
-/

set_option autoImplicit false

namespace WsCodec

/-- Protocol side.  In the source this is the `const SIDE: bool` generic
parameter, compared against the `SERVER` / `CLIENT` constants. -/
inductive Side
  | client
  | server
deriving DecidableEq

/-- A 4-byte masking key, the result of `Mask::key()` (`[u8; 4]` in the
source); passing it as a parameter models the pluggable `RandKey`
capability. -/
abbrev Key := Nat × Nat × Nat × Nat

/-- The four key bytes `[a, b, c, d]` as destructured by `encode`. -/
def keyList (k : Key) : List Nat := [k.1, k.2.1, k.2.2.1, k.2.2.2]

/-- The masking loop of `encode`: starting at payload index `i`, each byte
is XORed with `mask.get_unchecked(index % 4)`. -/
def maskFrom (k : Key) : Nat → List Nat → List Nat
  | _, [] => []
  | i, b :: rest => (b ^^^ (keyList k).getD (i % 4) 0) :: maskFrom k (i + 1) rest

/-- Mask a whole payload with key `k` (the loop of `encode` from index 0). -/
def maskWith (k : Key) (data : List Nat) : List Nat := maskFrom k 0 data

/-- Big-endian bytes of a `u16` (`(data_len as u16).to_be_bytes()`). -/
def be2 (n : Nat) : List Nat := [n / 2 ^ 8 % 256, n % 256]

/-- Big-endian bytes of a `u64` (`(data_len as u64).to_be_bytes()`). -/
def be8 (n : Nat) : List Nat :=
  [n / 2 ^ 56 % 256, n / 2 ^ 48 % 256, n / 2 ^ 40 % 256, n / 2 ^ 32 % 256,
   n / 2 ^ 24 % 256, n / 2 ^ 16 % 256, n / 2 ^ 8 % 256, n % 256]

/-- `let mask_bit = if SERVER == SIDE { 0 } else { 0x80 };` -/
def maskBit (side : Side) : Nat := if side = Side.server then 0 else 0x80

/-- The pre-payload header bytes written by `encode` before the optional
mask key: byte 0 is `((fin as u8) << 7) | opcode`, byte 1 and the length
extension follow the three length forms of the source. -/
def header (side : Side) (fin : Bool) (opcode : Nat) (dataLen : Nat) : List Nat :=
  let b0 := ((cond fin 1 0) <<< 7) ||| opcode
  let mb := maskBit side
  if dataLen < 126 then
    [b0, mb ||| dataLen]
  else if dataLen < 65536 then
    b0 :: (mb ||| 126) :: be2 dataLen
  else
    b0 :: (mb ||| 127) :: be8 (dataLen % 2 ^ 64)

/-- The `len` local of `encode`: number of header bytes before the mask
key (2, 4 or 10 by length form). -/
def baseLen (dataLen : Nat) : Nat :=
  if dataLen < 126 then 2 else if dataLen < 65536 then 4 else 10

/-- The `header_len` local of `encode`: `len` on the server side,
`len + 4` on the client side (room for the mask key). -/
def headerLen (side : Side) (dataLen : Nat) : Nat :=
  baseLen dataLen + (if side = Side.server then 0 else 4)

/-- The additional capacity requested by `encode`:
`writer.reserve(if SERVER == SIDE { 10 } else { 14 } + data_len)`. -/
def reserveAmt (side : Side) (dataLen : Nat) : Nat :=
  (if side = Side.server then 10 else 14) + dataLen

/-- `frame::encode::<SIDE, Mask>(writer, fin, opcode, data)`: appends one
frame to `writer`.  On the server side the payload is copied verbatim
after the header; on the client side the 4-byte key is written after the
length field and the payload is XORed with it. -/
def encode (side : Side) (k : Key) (writer : List Nat) (fin : Bool) (opcode : Nat)
    (data : List Nat) : List Nat :=
  if side = Side.server then
    writer ++ header side fin opcode data.length ++ data
  else
    writer ++ header side fin opcode data.length ++ keyList k ++ maskWith k data

/-- `impl Frame for str`: text frames use `fin = true`, opcode 1. -/
def strEncode (side : Side) (k : Key) (w : List Nat) (s : List Nat) : List Nat :=
  encode side k w true 1 s

/-- `impl Frame for [u8]`: binary frames use `fin = true`, opcode 2. -/
def sliceEncode (side : Side) (k : Key) (w : List Nat) (d : List Nat) : List Nat :=
  encode side k w true 2 d

/-- `impl<const N: usize> Frame for [u8; N]`: same as byte slices. -/
def arrayEncode (side : Side) (k : Key) (w : List Nat) (d : List Nat) : List Nat :=
  encode side k w true 2 d

/-- The `Event` enum: `Ping(data)` or `Pong(data)`. -/
inductive Event
  | Ping (data : List Nat)
  | Pong (data : List Nat)

/-- `impl Frame for Event`: ping frames use opcode 9, pong frames 10. -/
def eventEncode (side : Side) (k : Key) (w : List Nat) : Event → List Nat
  | .Ping d => encode side k w true 9 d
  | .Pong d => encode side k w true 10 d

/-- The close payload built by `Close::encode`: the status code's
big-endian `u16` bytes followed by the reason bytes. -/
def closeData (code : Nat) (reason : List Nat) : List Nat :=
  be2 code ++ reason

/-- `impl Frame for Close`: close frames use `fin = true`, opcode 8. -/
def closeEncode (side : Side) (k : Key) (w : List Nat) (code : Nat)
    (reason : List Nat) : List Nat :=
  encode side k w true 8 (closeData code reason)

/-- The length indicator in the low 7 bits of header byte 1. -/
def indicator (dataLen : Nat) : Nat :=
  if dataLen < 126 then dataLen else if dataLen < 65536 then 126 else 127

/-- Spec-side definition, following the claim's words: the canonical
shortest unmasked header is `[byte0, len]` for `len < 126`,
`[byte0, 126]` plus two big-endian length bytes for `len < 65536`, and
`[byte0, 127]` plus eight big-endian length bytes otherwise. -/
def specServerHeader (fin : Bool) (opcode : Nat) (dataLen : Nat) : List Nat :=
  let b0 := ((cond fin 1 0) <<< 7) ||| opcode
  if dataLen < 126 then [b0, dataLen]
  else if dataLen < 65536 then [b0, 126, dataLen / 256, dataLen % 256]
  else [b0, 127] ++ be8 dataLen

/-- The logical fields of a parsed frame header. -/
structure HeaderInfo where
  fin : Bool
  opcode : Nat
  masked : Bool
  len : Nat
deriving DecidableEq

/-- Modelled from the spec: the payload-length step of the Header Reader
(its code, reached through `read_data_frame_header` and
`read_fragmented_header`, is not among the provided sources).  An
indicator below 126 is the length itself; 126 reads the next two bytes
big-endian; 127 reads the next eight bytes big-endian; a stream that
ends mid-header fails. -/
def readLen (ind : Nat) (s : List Nat) : Option (Nat × List Nat) :=
  if ind < 126 then some (ind, s)
  else if ind = 126 then
    match s with
    | x :: y :: rest => some (x * 256 + y, rest)
    | _ => none
  else
    match s with
    | a :: b :: c :: d :: e :: f :: g :: h :: rest =>
        some (((((((a * 256 + b) * 256 + c) * 256 + d) * 256 + e) * 256 + f) * 256
          + g) * 256 + h, rest)
    | _ => none

/-- Modelled from the spec: if the masked bit was set, the four bytes
after the length field are consumed as the mask key. -/
def readKey (masked : Bool) (s : List Nat) : Option (Option Key × List Nat) :=
  if masked then
    match s with
    | a :: b :: c :: d :: rest => some (some (a, b, c, d), rest)
    | _ => none
  else some (none, s)

/-- Modelled from the spec: the Header Reader parses byte 0 (`fin` is
bit 7, `opcode` is bits 0-3), byte 1 (`masked` is bit 7, the length
indicator is bits 0-6), then the extended length and the optional mask
key, failing when the source ends mid-header. -/
def readHeader (s : List Nat) : Option (HeaderInfo × Option Key × List Nat) :=
  match s with
  | b0 :: b1 :: rest =>
    match readLen (b1 % 128) rest with
    | none => none
    | some (len, rest2) =>
      match readKey (b1.testBit 7) rest2 with
      | none => none
      | some (k, rest3) => some (⟨b0.testBit 7, b0 % 16, b1.testBit 7, len⟩, k, rest3)
  | _ => none

/-- Modelled from the spec: `read_fragmented_header` accepts only a
continuation frame — the parsed opcode must be 0. -/
def readFragHeader (s : List Nat) : Option (HeaderInfo × Option Key × List Nat) :=
  match readHeader s with
  | some (info, k, rest) => if info.opcode = 0 then some (info, k, rest) else none
  | none => none

/-- The connection's mutable read state: `len` (bytes of the current
frame's payload not yet delivered) and `fin` (whether the current frame
is the last of its message). -/
structure ReadState where
  len : Nat
  fin : Bool
deriving DecidableEq

/-- `Data::read` of `src/ws/client.rs`, with `read_bytes` modelled from
the spec ("delivers up to `min(buf.len(), len)` bytes from the
transport"): the requested count is `buf.len().min(self.ws.len)`, the
delivered count is that request capped by transport availability, and
`len` is decremented by exactly the delivered count, which is returned. -/
def rawRead (st : ReadState) (bufLen : Nat) (stream : List Nat) :
    Nat × List Nat × ReadState × List Nat :=
  let req := min bufLen st.len
  let amt := min req stream.length
  (amt, stream.take amt, ⟨st.len - amt, st.fin⟩, stream.drop amt)

/-- Modelled from the spec: the read entry point of the message handle
(provided by the `default_impl_for_data!` macro, whose code is not among
the provided sources) — when `len` is 0 and `fin` is false it first
parses the continuation frame's header, refreshes `len`/`fin` from it,
and then resumes payload delivery; otherwise it delivers directly. -/
def dataRead (st : ReadState) (bufLen : Nat) (stream : List Nat) :
    Option (Nat × List Nat × ReadState × List Nat) :=
  if st.len = 0 ∧ st.fin = false then
    match readFragHeader stream with
    | none => none
    | some (info, _, rest) => some (rawRead ⟨info.len, info.fin⟩ bufLen rest)
  else some (rawRead st bufLen stream)

/-- The status line required by `connect_with_headers`. -/
def httpStatusLine : List Char := "HTTP/1.1 101 Switching Protocols\r\n".data

/-- `str::strip_prefix` specialised to a literal: drop `lit` from the
front of `s`, or fail. -/
def dropLit : List Char → List Char → Option (List Char)
  | [], s => some s
  | _ :: _, [] => none
  | c :: cs, x :: xs => if c = x then dropLit cs xs else none

/-- The response handling of `Websocket::<CLIENT>::connect_with_headers`.
The accept-key extraction (`http::headers_from_raw` followed by
`get_sec_ws_accept_key`) is not among the provided sources and is
modelled from the spec as an abstract extraction function `getAccept`;
on success the connection starts with `len = 0`, `fin = true`. -/
def connectHandshake (getAccept : List Char → Option (List Char)) (resp : List Char) :
    Except String ReadState :=
  match dropLit httpStatusLine resp with
  | none => Except.error "Invalid HTTP response"
  | some rest =>
    match getAccept rest with
    | none => Except.error "Could not get Accept-Key from response"
    | some _ => Except.ok ⟨0, true⟩

lemma keyList_length (k : Key) : (keyList k).length = 4 := rfl

lemma maskFrom_length (k : Key) (d : List Nat) :
    ∀ i, (maskFrom k i d).length = d.length := by
  induction d with
  | nil => intro i; rfl
  | cons b rest ih => intro i; simp [maskFrom, ih]

lemma maskWith_length (k : Key) (d : List Nat) :
    (maskWith k d).length = d.length :=
  maskFrom_length k d 0

lemma maskFrom_getElem (k : Key) (d : List Nat) :
    ∀ i j, (maskFrom k i d)[j]? =
      (d[j]?).map (fun b => b ^^^ (keyList k).getD ((i + j) % 4) 0) := by
  induction d with
  | nil => intro i j; simp [maskFrom]
  | cons b rest ih =>
    intro i j
    cases j with
    | zero => simp [maskFrom]
    | succ j =>
      have h := ih (i + 1) j
      have e : i + 1 + j = i + (j + 1) := by omega
      rw [e] at h
      simpa [maskFrom, List.getElem?_cons_succ] using h

lemma maskWith_getElem (k : Key) (d : List Nat) (j : Nat) :
    (maskWith k d)[j]? = (d[j]?).map (fun b => b ^^^ (keyList k).getD (j % 4) 0) := by
  simpa [maskWith] using maskFrom_getElem k d 0 j

lemma maskBit_client : maskBit Side.client = 128 := rfl

lemma maskBit_server : maskBit Side.server = 0 := rfl

lemma maskBit_eq_shift (side : Side) :
    maskBit side = (if side = Side.client then 1 else 0) <<< 7 := by
  cases side <;> rfl

lemma header_eq (side : Side) (fin : Bool) (opcode : Nat) (L : Nat) :
    header side fin opcode L =
      (((cond fin 1 0) <<< 7) ||| opcode) :: (maskBit side ||| indicator L) ::
        (if L < 126 then [] else if L < 65536 then be2 L else be8 (L % 2 ^ 64)) := by
  simp only [header, indicator]
  split_ifs <;> rfl

lemma header_length (side : Side) (fin : Bool) (opcode : Nat) (L : Nat) :
    (header side fin opcode L).length = baseLen L := by
  rw [header_eq]
  simp only [baseLen]
  split_ifs <;> simp [be2, be8]

lemma encode_server (k : Key) (w : List Nat) (fin : Bool) (opcode : Nat) (data : List Nat) :
    encode Side.server k w fin opcode data =
      w ++ header Side.server fin opcode data.length ++ data := rfl

lemma encode_client (k : Key) (w : List Nat) (fin : Bool) (opcode : Nat) (data : List Nat) :
    encode Side.client k w fin opcode data =
      w ++ header Side.client fin opcode data.length ++ keyList k ++ maskWith k data := rfl

lemma indicator_lt (L : Nat) : indicator L < 128 := by
  unfold indicator
  split_ifs <;> omega

lemma testBit7_lor_128 (x : Nat) (hx : x < 128) : ((128 : Nat) ||| x).testBit 7 = true := by
  rw [Nat.testBit_lor]
  simp [Nat.testBit_lt_two_pow (show x < 2 ^ 7 from hx)]
  decide

lemma testBit7_lt_128 (x : Nat) (hx : x < 128) : x.testBit 7 = false :=
  Nat.testBit_lt_two_pow (show x < 2 ^ 7 from hx)

lemma header_server_eq_spec (fin : Bool) (opcode : Nat) (L : Nat) (h : L < 2 ^ 64) :
    header Side.server fin opcode L = specServerHeader fin opcode L := by
  simp only [header, specServerHeader, maskBit_server, Nat.zero_or]
  split_ifs with h1 h2
  · rfl
  · simp only [be2]
    have : L / 2 ^ 8 % 256 = L / 256 := Nat.mod_eq_of_lt (by omega)
    rw [this]
  · rw [Nat.mod_eq_of_lt h]
    rfl

lemma byte0_fields (f : Bool) (op : Nat) (hop : op < 16) :
    (((cond f 1 0) <<< 7) ||| op).testBit 7 = f ∧
    (((cond f 1 0) <<< 7) ||| op) % 16 = op := by
  cases f <;> interval_cases op <;> exact ⟨by decide, by decide⟩

lemma readHeader_header_server (f : Bool) (op L : Nat) (hop : op < 16) (hL : L < 2 ^ 64)
    (tail : List Nat) :
    readHeader (header Side.server f op L ++ tail) =
      some (⟨f, op, false, L⟩, none, tail) := by
  obtain ⟨hb0t, hb0m⟩ := byte0_fields f op hop
  by_cases h1 : L < 126
  · have hh : header Side.server f op L = [((cond f 1 0) <<< 7) ||| op, L] := by
      simp [header, maskBit_server, Nat.zero_or, if_pos h1]
    rw [hh]
    simp [readHeader, readLen, readKey, hb0t, hb0m,
      Nat.mod_eq_of_lt (show L < 128 by omega), h1,
      testBit7_lt_128 L (by omega)]
  · by_cases h2 : L < 65536
    · have hh : header Side.server f op L =
          [((cond f 1 0) <<< 7) ||| op, 126, L / 2 ^ 8 % 256, L % 256] := by
        simp [header, maskBit_server, Nat.zero_or, h1, if_pos h2, be2]
      rw [hh]
      simp [readHeader, readLen, readKey, hb0t, hb0m,
        testBit7_lt_128 126 (by omega)]
      omega
    · have hh : header Side.server f op L =
          [((cond f 1 0) <<< 7) ||| op, 127, L / 2 ^ 56 % 256, L / 2 ^ 48 % 256,
            L / 2 ^ 40 % 256, L / 2 ^ 32 % 256, L / 2 ^ 24 % 256, L / 2 ^ 16 % 256,
            L / 2 ^ 8 % 256, L % 256] := by
        simp [header, maskBit_server, Nat.zero_or, h1, h2, be8]
        omega
      rw [hh]
      simp [readHeader, readLen, readKey, hb0t, hb0m,
        testBit7_lt_128 127 (by omega)]
      omega

/-- C1: for every payload the unmasked (server-side) encoder emits the
canonical shortest header: a 2-byte header for lengths below 126, the
126-indicator plus two big-endian length bytes (4 bytes) for lengths
below 65536, and the 127-indicator plus eight big-endian length bytes
(10 bytes) otherwise — never a longer form than necessary. -/
theorem c1_canonical_length_form (k : Key) (w : List Nat) (fin : Bool) (opcode : Nat)
    (data : List Nat) (h : data.length < 2 ^ 64) :
    encode Side.server k w fin opcode data =
      w ++ specServerHeader fin opcode data.length ++ data ∧
    (specServerHeader fin opcode data.length).length =
      (if data.length < 126 then 2 else if data.length < 65536 then 4 else 10) := by
  constructor
  · rw [encode_server, header_server_eq_spec _ _ _ h]
  · simp only [specServerHeader]
    split_ifs <;> simp [be8]

/-- Witness for C1 at a concrete 2-byte payload. -/
theorem c1_canonical_length_form_witness :
    ([72, 105] : List Nat).length < 2 ^ 64 ∧
    (encode Side.server (0, 0, 0, 0) [] true 1 [72, 105] =
        [] ++ specServerHeader true 1 ([72, 105] : List Nat).length ++ [72, 105] ∧
      (specServerHeader true 1 ([72, 105] : List Nat).length).length =
        (if ([72, 105] : List Nat).length < 126 then 2
         else if ([72, 105] : List Nat).length < 65536 then 4 else 10)) :=
  ⟨by decide, c1_canonical_length_form (0, 0, 0, 0) [] true 1 [72, 105] (by decide)⟩

/-- C2: the first emitted byte is `(fin << 7) | opcode` and the second is
`(mask_bit << 7) | length_indicator`, where the mask bit is 1 exactly on
the client side and the indicator is the payload length when below 126,
else 126 or 127 according to the length form. -/
theorem c2_header_first_two_bytes (side : Side) (k : Key) (w : List Nat) (fin : Bool)
    (opcode : Nat) (data : List Nat) :
    ∃ rest, encode side k w fin opcode data =
      w ++ (((cond fin 1 0) <<< 7) ||| opcode) ::
        (((if side = Side.client then 1 else 0) <<< 7) ||| indicator data.length) :: rest := by
  simp only [← maskBit_eq_shift]
  cases side with
  | server =>
    refine ⟨(if data.length < 126 then [] else if data.length < 65536 then be2 data.length
      else be8 (data.length % 2 ^ 64)) ++ data, ?_⟩
    rw [encode_server, header_eq]
    simp [List.append_assoc]
  | client =>
    refine ⟨(if data.length < 126 then [] else if data.length < 65536 then be2 data.length
      else be8 (data.length % 2 ^ 64)) ++ (keyList k ++ maskWith k data), ?_⟩
    rw [encode_client, header_eq]
    simp [List.append_assoc]

/-- C3: for identical inputs, the client side sets the mask bit of header
byte 1, writes the 4-byte key right after the length field and XORs every
payload byte `i` with `key[i % 4]`; the server side leaves the mask bit
clear, writes no key, and copies the payload verbatim. -/
theorem c3_side_asymmetry (k : Key) (w : List Nat) (fin : Bool) (opcode : Nat)
    (data : List Nat) :
    encode Side.server k w fin opcode data =
      w ++ header Side.server fin opcode data.length ++ data ∧
    encode Side.client k w fin opcode data =
      w ++ header Side.client fin opcode data.length ++ keyList k ++ maskWith k data ∧
    (keyList k).length = 4 ∧
    (∀ j, (maskWith k data)[j]? =
      (data[j]?).map (fun b => b ^^^ (keyList k).getD (j % 4) 0)) ∧
    ((header Side.client fin opcode data.length).getD 1 0).testBit 7 = true ∧
    ((header Side.server fin opcode data.length).getD 1 0).testBit 7 = false := by
  refine ⟨encode_server k w fin opcode data, encode_client k w fin opcode data,
    keyList_length k, fun j => maskWith_getElem k data j, ?_, ?_⟩
  · rw [header_eq]
    simp only [List.getD_cons_succ, List.getD_cons_zero, maskBit_client]
    exact testBit7_lor_128 _ (indicator_lt _)
  · rw [header_eq]
    simp only [List.getD_cons_succ, List.getD_cons_zero, maskBit_server, Nat.zero_or]
    exact testBit7_lt_128 _ (indicator_lt _)

/-- C4: masking then unmasking with the same key is the identity on any
payload, the empty payload included. -/
theorem c4_masking_involutive (k : Key) (p : List Nat) :
    maskWith k (maskWith k p) = p := by
  have h : ∀ q i, maskFrom k i (maskFrom k i q) = q := by
    intro q
    induction q with
    | nil => intro i; rfl
    | cons b rest ih => intro i; simp [maskFrom, Nat.xor_cancel_right, ih (i + 1)]
  exact h p 0

/-- C7 fails on the code: for a 5-byte payload on the server side the code
reserves `10 + 5 = 15` bytes, not the actual `header_len + payload.len()
= 2 + 5 = 7`. -/
theorem c7_counterexample :
    ¬ (reserveAmt Side.server ([72, 101, 108, 108, 111] : List Nat).length =
      headerLen Side.server ([72, 101, 108, 108, 111] : List Nat).length +
        ([72, 101, 108, 108, 111] : List Nat).length) := by decide

/-- C7 (amended): the encoder reserves `10 + payload.len()` (server) or
`14 + payload.len()` (client) additional capacity — the worst-case header
length — which is always at least the actual
`header_len + payload.len()`. -/
theorem c7_reserve_upper_bound (side : Side) (dataLen : Nat) :
    reserveAmt side dataLen = (if side = Side.server then 10 else 14) + dataLen ∧
    headerLen side dataLen + dataLen ≤ reserveAmt side dataLen := by
  refine ⟨rfl, ?_⟩
  cases side <;> simp [headerLen, baseLen, reserveAmt] <;> split_ifs <;> omega

/-- C8: every typed payload kind reduces to the single encode primitive
with `fin = true` and the mapped opcode (text 1, binary 2, ping 9,
pong 10, close 8 with the 2-byte big-endian status code before the
reason); code 1000 with reason "bye" yields payload
`03 E8 62 79 65`. -/
theorem c8_typed_payloads (side : Side) (k : Key) (w : List Nat) (s d pd gd : List Nat)
    (code : Nat) (reason : List Nat) :
    strEncode side k w s = encode side k w true 1 s ∧
    sliceEncode side k w d = encode side k w true 2 d ∧
    arrayEncode side k w d = encode side k w true 2 d ∧
    eventEncode side k w (Event.Ping pd) = encode side k w true 9 pd ∧
    eventEncode side k w (Event.Pong gd) = encode side k w true 10 gd ∧
    closeEncode side k w code reason = encode side k w true 8 (be2 code ++ reason) ∧
    closeEncode side k w 1000 [98, 121, 101] =
      encode side k w true 8 [0x03, 0xE8, 0x62, 0x79, 0x65] := by
  exact ⟨rfl, rfl, rfl, rfl, rfl, rfl, rfl⟩

/-- C10: encode only appends — the prior buffer contents survive as a
strict byte-for-byte prefix, and the buffer grows by exactly
`header_len + payload.len()` where `header_len` is 2, 4 or 10 by the
length form, plus 4 on the client side. -/
theorem c10_append_only (side : Side) (k : Key) (w : List Nat) (fin : Bool)
    (opcode : Nat) (data : List Nat) :
    (encode side k w fin opcode data).take w.length = w ∧
    (encode side k w fin opcode data).length =
      w.length + headerLen side data.length + data.length := by
  cases side with
  | server =>
    rw [encode_server]
    constructor
    · rw [List.append_assoc]
      exact List.take_left w _
    · simp [List.length_append, header_length, headerLen]
      omega
  | client =>
    rw [encode_client]
    constructor
    · rw [List.append_assoc, List.append_assoc]
      exact List.take_left w _
    · simp [List.length_append, header_length, keyList_length, maskWith_length, headerLen]
      omega

/-- C5: with `len = 0` and `fin = false`, the next read on the message
handle transparently parses the continuation frame's header (a frame
whose opcode is not 0 is rejected), refreshes `len`/`fin` from it, and
resumes delivering the payload bytes unchanged to the caller. -/
theorem c5_transparent_continuation (k : Key) (f : Bool) (p : List Nat) (bufLen : Nat)
    (rest : List Nat) (hp : p.length < 2 ^ 64) :
    dataRead ⟨0, false⟩ bufLen (encode Side.server k [] f 0 p ++ rest) =
      some (min bufLen p.length, p.take (min bufLen p.length),
        ⟨p.length - min bufLen p.length, f⟩, p.drop (min bufLen p.length) ++ rest) ∧
    dataRead ⟨0, false⟩ bufLen (encode Side.server k [] f 1 p ++ rest) = none := by
  have hstream : ∀ op, encode Side.server k [] f op p ++ rest =
      header Side.server f op p.length ++ (p ++ rest) := by
    intro op
    rw [encode_server]
    simp [List.append_assoc]
  have hle : min bufLen p.length ≤ p.length := min_le_right _ _
  constructor
  · rw [hstream 0]
    have hrh := readHeader_header_server f 0 p.length (by omega) hp (p ++ rest)
    have hfrag : readFragHeader (header Side.server f 0 p.length ++ (p ++ rest)) =
        some (⟨f, 0, false, p.length⟩, none, p ++ rest) := by
      simp [readFragHeader, hrh]
    have hamt : min (min bufLen p.length) (p ++ rest).length = min bufLen p.length := by
      simp only [List.length_append]
      omega
    simp [dataRead, hfrag, rawRead, hamt, List.take_append_of_le_length hle,
      List.drop_append_of_le_length hle]
  · rw [hstream 1]
    have hrh := readHeader_header_server f 1 p.length (by omega) hp (p ++ rest)
    simp [dataRead, readFragHeader, hrh]

/-- Witness for C5 at a concrete 2-byte continuation payload. -/
theorem c5_transparent_continuation_witness :
    ([7, 8] : List Nat).length < 2 ^ 64 ∧
    (dataRead ⟨0, false⟩ 1 (encode Side.server (0, 0, 0, 0) [] true 0 [7, 8] ++ [9]) =
        some (min 1 ([7, 8] : List Nat).length,
          ([7, 8] : List Nat).take (min 1 ([7, 8] : List Nat).length),
          ⟨([7, 8] : List Nat).length - min 1 ([7, 8] : List Nat).length, true⟩,
          ([7, 8] : List Nat).drop (min 1 ([7, 8] : List Nat).length) ++ [9]) ∧
      dataRead ⟨0, false⟩ 1 (encode Side.server (0, 0, 0, 0) [] true 1 [7, 8] ++ [9]) = none) :=
  ⟨by decide, c5_transparent_continuation (0, 0, 0, 0) true [7, 8] 1 [9] (by decide)⟩

/-- C6 fails as stated: with an empty destination buffer, `read` delivers
0 bytes although the current message still has 5 undelivered bytes, so
"zero bytes only when the logical message is exhausted" does not hold. -/
theorem c6_counterexample :
    (rawRead ⟨5, true⟩ 0 [1, 2, 3, 4, 5]).1 = 0 ∧
    ¬ ((rawRead ⟨5, true⟩ 0 [1, 2, 3, 4, 5]).2.2.1.len = 0) := by decide

/-- C6 (amended): `read` delivers exactly `min(buf.len(), len)` bytes
when the transport has them (never more), decrements `len` by exactly
the delivered count, returns that count, and delivers zero bytes only
when the destination buffer is empty or the current frame's remaining
length is zero. -/
theorem c6_read_bounded (st : ReadState) (bufLen : Nat) (stream : List Nat)
    (h : st.len ≤ stream.length) :
    (rawRead st bufLen stream).1 = min bufLen st.len ∧
    (rawRead st bufLen stream).2.1 = stream.take (min bufLen st.len) ∧
    (rawRead st bufLen stream).2.2.1.len = st.len - min bufLen st.len ∧
    (rawRead st bufLen stream).2.2.1.fin = st.fin ∧
    ((rawRead st bufLen stream).1 = 0 ↔ bufLen = 0 ∨ st.len = 0) := by
  have hamt : min (min bufLen st.len) stream.length = min bufLen st.len :=
    min_eq_left (le_trans (min_le_right _ _) h)
  refine ⟨by simp [rawRead, hamt], by simp [rawRead, hamt], by simp [rawRead, hamt],
    by simp [rawRead, hamt], ?_⟩
  simp only [rawRead, hamt]
  omega

/-- Witness for C6 (amended) at a concrete state and stream. -/
theorem c6_read_bounded_witness :
    (⟨2, true⟩ : ReadState).len ≤ ([9, 9, 9] : List Nat).length ∧
    ((rawRead ⟨2, true⟩ 1 [9, 9, 9]).1 = min 1 (⟨2, true⟩ : ReadState).len ∧
      (rawRead ⟨2, true⟩ 1 [9, 9, 9]).2.1 =
        ([9, 9, 9] : List Nat).take (min 1 (⟨2, true⟩ : ReadState).len) ∧
      (rawRead ⟨2, true⟩ 1 [9, 9, 9]).2.2.1.len =
        (⟨2, true⟩ : ReadState).len - min 1 (⟨2, true⟩ : ReadState).len ∧
      (rawRead ⟨2, true⟩ 1 [9, 9, 9]).2.2.1.fin = (⟨2, true⟩ : ReadState).fin ∧
      ((rawRead ⟨2, true⟩ 1 [9, 9, 9]).1 = 0 ↔ 1 = 0 ∨ (⟨2, true⟩ : ReadState).len = 0)) :=
  ⟨by decide, c6_read_bounded ⟨2, true⟩ 1 [9, 9, 9] (by decide)⟩

/-- C9: whenever `connect` succeeds, the response began with the 101
Switching Protocols status line and the accept-key extraction succeeded
(so a malformed or key-less response can only yield an error), and the
returned connection starts with `len = 0` and `fin = true`. -/
theorem c9_handshake_validation (getAccept : List Char → Option (List Char))
    (resp : List Char) (st : ReadState)
    (h : connectHandshake getAccept resp = Except.ok st) :
    (∃ rest, dropLit httpStatusLine resp = some rest ∧ getAccept rest ≠ none) ∧
    st.len = 0 ∧ st.fin = true := by
  unfold connectHandshake at h
  split at h
  · simp at h
  · next rest heq =>
    split at h
    · simp at h
    · next a heq2 =>
      simp only [Except.ok.injEq] at h
      subst h
      exact ⟨⟨rest, heq, by simp [heq2]⟩, rfl, rfl⟩

/-- Witness for C9 at a concrete valid response. -/
theorem c9_handshake_validation_witness :
    connectHandshake (fun _ => some []) httpStatusLine = Except.ok ⟨0, true⟩ ∧
    ((∃ rest, dropLit httpStatusLine httpStatusLine = some rest ∧
        (fun (_ : List Char) => some ([] : List Char)) rest ≠ none) ∧
      (⟨0, true⟩ : ReadState).len = 0 ∧ (⟨0, true⟩ : ReadState).fin = true) := by
  have hok : connectHandshake (fun _ => some []) httpStatusLine = Except.ok ⟨0, true⟩ := by
    rfl
  exact ⟨hok, c9_handshake_validation _ _ _ hok⟩

end WsCodec

